import Mathlib

/-!
Verification of the onboarding core of the `admin` repository.

The embedded code lives in
`apps/web/src/components/onboarding/join-organizations.tsx` and
`apps/web/src/components/onboarding/onboarding.tsx`.  Pure client-side
functions (`nameToSlug`, `extractDomain`, the zod form schema, the random
organization-name generator, the single-shot creation handler, the
organization-setup update payload) are translated directly from that source.
Backend operations that the source only declares through TODO comments
(domain matcher, join endpoint, repository inserts, onboarding state
machine) are modelled from the specification and marked as such in their
doc comments.

Strings are handled through their character lists (`String.data`); the
JavaScript `toLowerCase` on the ASCII range is `Char.toLower`.
-/

/-! ## Slug generator (source: `nameToSlug` in join-organizations.tsx lines
79-84, identical copy in onboarding.tsx lines 272-277) -/

/-- Character class of the regex `[a-z0-9]`, by code point. -/
def isSlugAlnum (c : Char) : Bool :=
  (97 ≤ c.toNat && c.toNat ≤ 122) || (48 ≤ c.toNat && c.toNat ≤ 57)

/-- One left-to-right pass of `.replace(/[^a-z0-9]+/g, "-")`: every maximal
run of characters outside `[a-z0-9]` is replaced by a single dash.  The
flag records whether the scanner is inside such a run. -/
def collapseRuns (insideRun : Bool) : List Char → List Char
  | [] => []
  | c :: cs =>
    if isSlugAlnum c then c :: collapseRuns false cs
    else if insideRun then collapseRuns true cs
    else '-' :: collapseRuns true cs

/-- The `^-` half of `.replace(/^-|-$/g, "")`: at most one leading dash is
removed. -/
def dropLeadDash (l : List Char) : List Char :=
  match l with
  | [] => []
  | c :: t => if c = '-' then t else c :: t

/-- The `-$` half of `.replace(/^-|-$/g, "")`: at most one trailing dash is
removed. -/
def dropTrailDash (l : List Char) : List Char :=
  (dropLeadDash l.reverse).reverse

/-- `nameToSlug` on character lists: lowercase, collapse non-alphanumeric
runs to a dash, strip one leading and one trailing dash. -/
def slugChars (l : List Char) : List Char :=
  dropTrailDash (dropLeadDash (collapseRuns false (l.map Char.toLower)))

/-- Source `nameToSlug`:
`name.toLowerCase().replace(/[^a-z0-9]+/g, "-").replace(/^-|-$/g, "")`. -/
def nameToSlug (s : String) : String :=
  ⟨slugChars s.data⟩

/-! ### Spec-side slug transformation (for the refinement claim C2)

The spec describes `Slugify` as: lowercase, replace every maximal run of
characters outside `[a-z0-9]` with a single "-", trim leading and trailing
"-".  The run replacement is rendered here by a recursion that consumes a
whole maximal run at a time, and the trim removes all leading and all
trailing dashes; both therefore differ syntactically from the code's
one-pass regex embedding above and are compared to it by theorem. -/

/-- Spec reading of the run replacement: a maximal run of non-`[a-z0-9]`
characters is consumed in one step and replaced by a single dash. -/
def specCollapse : List Char → List Char
  | [] => []
  | c :: cs =>
    if isSlugAlnum c then c :: specCollapse cs
    else '-' :: specCollapse (cs.dropWhile (fun d => !isSlugAlnum d))
termination_by l => l.length
decreasing_by
  · simp only [List.length_cons]
    omega
  · simp only [List.length_cons]
    exact Nat.lt_succ_of_le (List.dropWhile_sublist _).length_le

/-- Dash test used by the spec-side trimming. -/
def isDash (c : Char) : Bool := c == '-'

/-- Remove all trailing dashes. -/
def trimTrailDashes (l : List Char) : List Char :=
  (l.reverse.dropWhile isDash).reverse

/-- Remove all leading and all trailing dashes. -/
def trimDashes (l : List Char) : List Char :=
  trimTrailDashes (l.dropWhile isDash)

/-- The spec's `Slugify`, assembled from the spec-side stages. -/
def slugifySpec (s : String) : String :=
  ⟨trimDashes (specCollapse (s.data.map Char.toLower))⟩

/-- A slug output character: lowercase alphanumeric or dash. -/
def isSlugChar (c : Char) : Bool :=
  isSlugAlnum c || c == '-'

/-- A slug is URL-safe when every character is in `[a-z0-9-]`. -/
def isUrlSafeSlug (s : String) : Bool :=
  s.data.all isSlugChar

example : nameToSlug "Magic Unicorn" = "magic-unicorn" := by decide
example : nameToSlug "  Acme,  Inc!! " = "acme-inc" := by decide
example : nameToSlug "" = "" := by decide
example : nameToSlug "--a--b--" = "a-b" := by decide

/-! ## Random organization names (source: `ADJECTIVES`, `NOUNS`,
`generateRandomOrgName` in join-organizations.tsx lines 11-73) -/

/-- Source `ADJECTIVES` list. -/
def ADJECTIVES : List String :=
  ["Magic", "Cosmic", "Happy", "Swift", "Bright", "Golden", "Silver",
   "Crystal", "Mystic", "Noble", "Rapid", "Stellar", "Lucky", "Mighty",
   "Clever", "Bold", "Wild", "Cool", "Epic", "Super", "Mega", "Ultra",
   "Turbo", "Hyper"]

/-- Source `NOUNS` list. -/
def NOUNS : List String :=
  ["Unicorn", "Dragon", "Phoenix", "Tiger", "Eagle", "Wolf", "Falcon",
   "Lion", "Panther", "Raven", "Hawk", "Bear", "Fox", "Owl", "Shark",
   "Dolphin", "Penguin", "Koala", "Panda", "Otter", "Rabbit", "Squirrel",
   "Raccoon", "Beaver"]

/-- Source `generateRandomOrgName`: picks one adjective and one noun by a
random index.  The two calls to `Math.floor(Math.random() * length)` are
modelled by arbitrary naturals reduced modulo the list lengths. -/
def generateRandomOrgName (i j : Nat) : String :=
  (ADJECTIVES.getD (i % ADJECTIVES.length) "") ++ " " ++
    (NOUNS.getD (j % NOUNS.length) "")

/-! ## Domain matcher (modelled: the backend behind the TODO comments in
join-organizations.tsx lines 86-103; spec sections 3, 4.1) -/

/-- Modelled from the spec: an `OrganizationDomainPolicy` belongs to one
organization and carries the admitted email-domain entries (stored
normalized to lowercase) and the boolean "open" flag. -/
structure OrganizationDomainPolicy where
  orgId : Nat
  domains : List String
  openFlag : Bool
deriving DecidableEq, Repr

/-- ASCII lowercasing of a string, character by character. -/
def lowerStr (s : String) : String :=
  ⟨s.data.map Char.toLower⟩

/-- Modelled from the spec (section 4.1): a policy admits an email domain
iff its "open" flag is true and the lowercased domain is byte-for-byte
equal to one entry of the policy's domain set. -/
def policyAdmits (p : OrganizationDomainPolicy) (emailDomain : String) : Bool :=
  p.openFlag && p.domains.contains (lowerStr emailDomain)

/-- Modelled from the spec (section 4.1): `FindJoinable` keeps, in policy
order, the organizations whose policy admits the email domain. -/
def FindJoinable (emailDomain : String)
    (policies : List OrganizationDomainPolicy) : List Nat :=
  (policies.filter (fun p => policyAdmits p emailDomain)).map
    (fun p => p.orgId)

/-! ## Profile form schema (source: `ROLES`, `COMPANY_SIZES`, `USE_CASES`
and the zod `schema` in onboarding.tsx lines 33-63) -/

/-- The `value` fields of the source `ROLES` option list. -/
def ROLES : List String :=
  ["engineering", "product", "marketing", "design", "operations", "sales",
   "founder", "other"]

/-- The `value` fields of the source `COMPANY_SIZES` option list. -/
def COMPANY_SIZES : List String :=
  ["1", "2-25", "26-100", "101-500", "501-1000", "1001+"]

/-- The `value` fields of the source `USE_CASES` option list. -/
def USE_CASES : List String :=
  ["internal-apps", "manage-mcps", "ai-saas"]

/-- Source zod `schema`: each of the three fields is validated by
`z.string().min(1)` only — the check is on length, not on membership in
the option lists. -/
def schemaValidate (role companySize useCase : String) : Bool :=
  (1 ≤ role.length) && (1 ≤ companySize.length) && (1 ≤ useCase.length)

/-- A stored onboarding profile row. -/
structure ProfileRow where
  userId : Nat
  role : String
  companySize : String
  useCase : String
deriving DecidableEq, Repr

/-- The profile store, at most one row per user. -/
structure ProfileStore where
  rows : List ProfileRow
deriving DecidableEq, Repr

/-- Error raised when the submitted profile fails validation. -/
inductive SubmitError where
  | validationError
deriving DecidableEq, Repr

/-- Modelled from the spec (section 6, `UpsertProfile`): overwrite the
user's existing row when present, insert a row otherwise. -/
def upsertProfile (st : ProfileStore) (uid : Nat) (r c u : String) :
    ProfileStore :=
  if st.rows.any (fun row => row.userId == uid) then
    ⟨st.rows.map
      (fun row => if row.userId == uid then ⟨uid, r, c, u⟩ else row)⟩
  else ⟨⟨uid, r, c, u⟩ :: st.rows⟩

/-- Modelled from the spec (section 4.4, `SubmitProfile`), gated by the
source zod schema: an invalid submission reaches no persistence call. -/
def submitProfile (st : ProfileStore) (uid : Nat) (r c u : String) :
    ProfileStore × Except SubmitError ProfileRow :=
  if schemaValidate r c u then
    (upsertProfile st uid r c u, Except.ok ⟨uid, r, c, u⟩)
  else (st, Except.error SubmitError.validationError)

/-- Number of profile rows held by a user. -/
def countProfiles (st : ProfileStore) (uid : Nat) : Nat :=
  st.rows.countP (fun row => row.userId == uid)

/-! ## Organization creation (source: `handleCreateNew` in
join-organizations.tsx lines 227-251; repository insert modelled from the
spec section 6) -/

/-- An organization row: id, display name, slug. -/
structure Organization where
  id : Nat
  name : String
  slug : String
deriving DecidableEq, Repr

/-- The organization store, keyed by the unique slug index. -/
structure RepoState where
  orgs : List Organization
deriving DecidableEq, Repr

/-- Error surfaced by the repository on a slug uniqueness violation. -/
inductive CreateError where
  | slugConflict
deriving DecidableEq, Repr

/-- Modelled from the spec (section 6,
`InsertOrganization(name, slug, ...) → Organization | SlugConflictError`):
a single transactional insert that fails iff the slug is already taken. -/
def insertOrganization (st : RepoState) (name slug : String) :
    RepoState × Except CreateError Organization :=
  if st.orgs.any (fun o => o.slug == slug) then
    (st, Except.error CreateError.slugConflict)
  else
    let org : Organization := ⟨st.orgs.length, name, slug⟩
    (⟨org :: st.orgs⟩, Except.ok org)

/-- Source `handleCreateNew`: derive the slug with `nameToSlug` and call
`createTeam.mutateAsync` exactly once; any error is surfaced to the user
(`alert`), with no retry and no suffixing. -/
def handleCreateNew (st : RepoState) (randomName : String) :
    RepoState × Except CreateError Organization :=
  insertOrganization st randomName (nameToSlug randomName)

/-- Number of organizations carrying a given slug. -/
def countSlug (st : RepoState) (slug : String) : Nat :=
  st.orgs.countP (fun o => o.slug == slug)

/-! ## Joining an organization (modelled: the backend behind
`handleJoinOrg`, join-organizations.tsx lines 100-103 and 206-225; spec
sections 4.4 and 6) -/

/-- A membership row for the unique pair (user, organization). -/
structure MembershipRow where
  userId : Nat
  orgId : Nat
deriving DecidableEq, Repr

/-- The membership store. -/
structure JoinState where
  memberships : List MembershipRow
deriving DecidableEq, Repr

/-- Error surfaced verbatim when the user's domain is not admitted. -/
inductive JoinError where
  | domainNotAllowed
deriving DecidableEq, Repr

/-- The domain policy attached to an organization, if any. -/
def findPolicy (policies : List OrganizationDomainPolicy) (o : Nat) :
    Option OrganizationDomainPolicy :=
  policies.find? (fun p => p.orgId == o)

/-- The existing membership of a user in an organization, if any. -/
def findMembership (st : JoinState) (u o : Nat) : Option MembershipRow :=
  st.memberships.find? (fun m => m.userId == u && m.orgId == o)

/-- Modelled from the spec (section 4.4, `JoinOrganization`): re-validate
the user's email domain against the organization's current policy, fail
with `DomainNotAllowed` if it is not admitted; when the user already
belongs to the organization return the existing membership as a success;
otherwise insert the membership row. -/
def joinOrganization (st : JoinState)
    (policies : List OrganizationDomainPolicy) (u : Nat)
    (userDomain : String) (o : Nat) :
    JoinState × Except JoinError MembershipRow :=
  match findPolicy policies o with
  | none => (st, Except.error JoinError.domainNotAllowed)
  | some p =>
    if policyAdmits p userDomain then
      match findMembership st u o with
      | some m => (st, Except.ok m)
      | none => (⟨⟨u, o⟩ :: st.memberships⟩, Except.ok ⟨u, o⟩)
    else (st, Except.error JoinError.domainNotAllowed)

/-- Number of membership rows for a given (user, organization) pair. -/
def countMemberships (st : JoinState) (u o : Nat) : Nat :=
  st.memberships.countP (fun m => m.userId == u && m.orgId == o)

/-! ## Onboarding state machine (modelled: the backend behind the TODO
comments in onboarding.tsx lines 80-104; spec section 4.3) -/

/-- The onboarding stages of the spec's state machine. -/
inductive Stage where
  | notStarted
  | profileCollected
  | awaitingOrgChoice
  | completed
deriving DecidableEq, Repr

/-- Modelled from the spec (section 4.3): when profile collection
finishes, the machine moves to `AwaitingOrgChoice` iff the joinable list
computed at that moment is non-empty, and directly to `Completed`
otherwise. -/
def stageAfterProfile (joinable : List Nat) : Stage :=
  if joinable.isEmpty then Stage.completed else Stage.awaitingOrgChoice

/-- Modelled from the spec (section 4.4, `GetState`): the stage is derived
from profile completion first; a user whose onboarding already completed
stays `Completed` whatever the currently joinable organizations are. -/
def getStateStage (profileComplete : Bool) (onboardingCompleted : Bool)
    (joinable : List Nat) : Stage :=
  if !profileComplete then Stage.notStarted
  else if onboardingCompleted then Stage.completed
  else stageAfterProfile joinable

/-! ## Email domain extraction (source: `extractDomain` in onboarding.tsx
lines 261-264) -/

/-- JavaScript `email.split("@")` for the single-character separator:
splitting an empty string yields `[""]`, and every separator occurrence
opens a new part. -/
def splitOnChar (sep : Char) : List Char → List (List Char)
  | [] => [[]]
  | c :: cs =>
    if c = sep then [] :: splitOnChar sep cs
    else
      match splitOnChar sep cs with
      | [] => [[c]]
      | p :: ps => (c :: p) :: ps

/-- Source `extractDomain`:
`const parts = email.split("@"); return parts.length === 2 ? parts[1] : ""`. -/
def extractDomain (email : String) : String :=
  let parts := splitOnChar '@' email.data
  if parts.length = 2 then ⟨parts.getD 1 []⟩ else ""

example : extractDomain "a@acme.com" = "acme.com" := by decide
example : extractDomain "a@b@c.com" = "" := by decide
example : extractDomain "nodomain" = "" := by decide

/-! ## Organization setup submission (source: `SetupOrgDialog.onSubmit` in
onboarding.tsx lines 398-425; update application modelled from the team
repository contract) -/

/-- The fields a team update request may carry.  The backend applies
exactly the fields that are present. -/
structure TeamUpdateData where
  name : Option String := none
  slug : Option String := none
  avatarUrl : Option String := none
  allowedEmailDomains : Option (List String) := none
deriving DecidableEq, Repr

/-- A stored team row. -/
structure TeamRecord where
  id : Nat
  name : String
  slug : String
  avatarUrl : Option String
  allowedEmailDomains : List String
deriving DecidableEq, Repr

/-- Source `SetupOrgDialog.onSubmit`: the payload passed to
`updateTeam.mutateAsync` is `{ name: data.name }` — only the display name
field is present (avatar and domain updates are left as TODO comments). -/
def setupOrgSubmitUpdate (formName : String) : TeamUpdateData :=
  { name := some formName }

/-- Modelled from the spec: the team repository applies a partial update,
overwriting exactly the fields present in the request and leaving the
others unchanged. -/
def applyTeamUpdate (t : TeamRecord) (d : TeamUpdateData) : TeamRecord :=
  { t with
    name := d.name.getD t.name
    slug := d.slug.getD t.slug
    avatarUrl := match d.avatarUrl with
      | none => t.avatarUrl
      | some u => some u
    allowedEmailDomains := d.allowedEmailDomains.getD t.allowedEmailDomains }

/-! ## Lemmas about the slug pipeline -/

/-- No two adjacent dashes. -/
def NoDD (l : List Char) : Prop :=
  List.Chain' (fun a b => ¬(a = '-' ∧ b = '-')) l

theorem slugAlnum_ne_dash {c : Char} (h : isSlugAlnum c = true) : c ≠ '-' := by
  intro hc
  subst hc
  simp [isSlugAlnum] at h

theorem slugChar_toLower {c : Char} (h : isSlugChar c = true) :
    Char.toLower c = c := by
  have h' : (97 ≤ c.toNat ∧ c.toNat ≤ 122 ∨ 48 ≤ c.toNat ∧ c.toNat ≤ 57) ∨
      c = '-' := by
    simpa [isSlugChar, isSlugAlnum, beq_iff_eq, and_assoc] using h
  rcases h' with h' | rfl
  · show (if c.toNat ≥ 65 ∧ c.toNat ≤ 90 then Char.ofNat (c.toNat + 32) else c)
      = c
    rw [if_neg]
    omega
  · decide

theorem map_toLower_fixed {l : List Char}
    (h : ∀ c ∈ l, isSlugChar c = true) : l.map Char.toLower = l := by
  induction l with
  | nil => rfl
  | cons d t ih =>
    simp only [List.map_cons]
    rw [slugChar_toLower (h d (List.mem_cons_self d t)),
      ih (fun c hc => h c (List.mem_cons_of_mem d hc))]

theorem mem_collapseRuns {b : Bool} {l : List Char} {c : Char}
    (h : c ∈ collapseRuns b l) : isSlugChar c = true := by
  induction l generalizing b with
  | nil => simp [collapseRuns] at h
  | cons d t ih =>
    by_cases hd : isSlugAlnum d = true
    · rw [collapseRuns, if_pos hd] at h
      rcases List.mem_cons.mp h with rfl | h'
      · simp [isSlugChar, hd]
      · exact ih h'
    · rw [collapseRuns, if_neg hd] at h
      cases b with
      | true => exact ih h
      | false =>
        rcases List.mem_cons.mp h with rfl | h'
        · decide
        · exact ih h'

theorem head_collapseRuns_true {l : List Char} :
    (collapseRuns true l).head? ≠ some '-' := by
  induction l with
  | nil => simp [collapseRuns]
  | cons d t ih =>
    by_cases hd : isSlugAlnum d = true
    · rw [collapseRuns, if_pos hd]
      simp only [List.head?_cons, ne_eq, Option.some.injEq]
      exact slugAlnum_ne_dash hd
    · rw [collapseRuns, if_neg hd]
      exact ih

theorem noDD_collapseRuns (b : Bool) (l : List Char) :
    NoDD (collapseRuns b l) := by
  induction l generalizing b with
  | nil => cases b <;> exact List.chain'_nil
  | cons d t ih =>
    by_cases hd : isSlugAlnum d = true
    · rw [collapseRuns, if_pos hd]
      refine List.chain'_cons'.mpr ⟨fun y _ => ?_, ih false⟩
      exact fun hc => slugAlnum_ne_dash hd hc.1
    · rw [collapseRuns, if_neg hd]
      cases b with
      | true => exact ih true
      | false =>
        refine List.chain'_cons'.mpr ⟨fun y hy => ?_, ih true⟩
        intro hc
        exact head_collapseRuns_true (by rw [hy, hc.2])

theorem collapseRuns_true_eq (l : List Char) :
    collapseRuns true l =
      collapseRuns false (l.dropWhile (fun c => !isSlugAlnum c)) := by
  induction l with
  | nil => rfl
  | cons d t ih =>
    by_cases hd : isSlugAlnum d = true
    · rw [collapseRuns, if_pos hd,
        List.dropWhile_cons_of_neg (by simp [hd]),
        collapseRuns, if_pos hd]
    · rw [collapseRuns, if_neg hd,
        List.dropWhile_cons_of_pos (by simp [hd])]
      exact ih

theorem specCollapse_eq : ∀ l : List Char, specCollapse l = collapseRuns false l
  | [] => by simp [specCollapse, collapseRuns]
  | c :: cs => by
    by_cases hc : isSlugAlnum c = true
    · rw [specCollapse, if_pos hc, collapseRuns, if_pos hc,
        specCollapse_eq cs]
    · rw [specCollapse, if_neg hc, collapseRuns, if_neg hc,
        specCollapse_eq (cs.dropWhile (fun d => !isSlugAlnum d)),
        collapseRuns_true_eq]
      simp
termination_by l => l.length
decreasing_by
  all_goals simp only [List.length_cons]
  all_goals first
    | omega
    | exact Nat.lt_succ_of_le (List.dropWhile_sublist _).length_le

theorem noDD_tail {d : Char} {t : List Char} (h : NoDD (d :: t)) : NoDD t :=
  List.Chain'.tail h

theorem noDD_head {d : Char} {t : List Char} (h : NoDD (d :: t))
    (hd : d = '-') : t.head? ≠ some '-' := by
  intro ht
  cases t with
  | nil => simp at ht
  | cons e t' =>
    simp only [List.head?_cons, Option.some.injEq] at ht
    exact (List.chain'_cons.mp h).1 ⟨hd, ht⟩

theorem noDD_reverse {l : List Char} (h : NoDD l) : NoDD l.reverse := by
  rw [NoDD, List.chain'_reverse]
  exact h.imp (fun a b hab hc => hab ⟨hc.2, hc.1⟩)

theorem dropLeadDash_eq_dropWhile {l : List Char} (h : NoDD l) :
    dropLeadDash l = l.dropWhile isDash := by
  cases l with
  | nil => rfl
  | cons d t =>
    by_cases hd : d = '-'
    · subst hd
      rw [dropLeadDash, if_pos rfl, List.dropWhile_cons_of_pos (by decide)]
      cases t with
      | nil => rfl
      | cons e t' =>
        have : e ≠ '-' := by
          intro he
          exact noDD_head h rfl (by simp [he])
        rw [List.dropWhile_cons_of_neg (by simp [isDash, this])]
    · rw [dropLeadDash, if_neg hd,
        List.dropWhile_cons_of_neg (by simp [isDash, hd])]

theorem dropLeadDash_of_head {l : List Char} (h : l.head? ≠ some '-') :
    dropLeadDash l = l := by
  cases l with
  | nil => rfl
  | cons d t =>
    rw [dropLeadDash, if_neg]
    intro hd
    exact h (by simp [hd])

theorem head_dropLeadDash {l : List Char} (h : NoDD l) :
    (dropLeadDash l).head? ≠ some '-' := by
  cases l with
  | nil => simp [dropLeadDash]
  | cons d t =>
    by_cases hd : d = '-'
    · subst hd
      rw [dropLeadDash, if_pos rfl]
      exact noDD_head h rfl
    · rw [dropLeadDash, if_neg hd]
      simp [hd]

theorem noDD_dropLeadDash {l : List Char} (h : NoDD l) :
    NoDD (dropLeadDash l) := by
  cases l with
  | nil => exact h
  | cons d t =>
    rw [dropLeadDash]
    split
    · exact noDD_tail h
    · exact h

theorem mem_dropLeadDash {l : List Char} {c : Char}
    (h : c ∈ dropLeadDash l) : c ∈ l := by
  cases l with
  | nil => exact h
  | cons d t =>
    rw [dropLeadDash] at h
    split at h
    · exact List.mem_cons_of_mem d h
    · exact h

theorem mem_dropLeadDash_of {l : List Char} {c : Char} (h : c ∈ l)
    (hc : c ≠ '-') : c ∈ dropLeadDash l := by
  cases l with
  | nil => exact h
  | cons d t =>
    rw [dropLeadDash]
    split
    · rcases List.mem_cons.mp h with rfl | h'
      · rename_i hd
        exact absurd hd hc
      · exact h'
    · exact h

theorem getLast_dropLeadDash {l : List Char} (h : l.getLast? ≠ some '-') :
    (dropLeadDash l).getLast? ≠ some '-' := by
  cases l with
  | nil => simp [dropLeadDash]
  | cons d t =>
    rw [dropLeadDash]
    split
    · cases t with
      | nil => simp
      | cons e t' => simpa using h
    · exact h

theorem collapseRuns_fixed {l : List Char}
    (hc : ∀ c ∈ l, isSlugChar c = true) (hd : NoDD l) :
    collapseRuns false l = l ∧
      (l.head? ≠ some '-' → collapseRuns true l = l) := by
  induction l with
  | nil => exact ⟨rfl, fun _ => rfl⟩
  | cons d t ih =>
    have hct : ∀ c ∈ t, isSlugChar c = true :=
      fun c h' => hc c (List.mem_cons_of_mem d h')
    have ih' := ih hct (noDD_tail hd)
    by_cases ha : isSlugAlnum d = true
    · constructor
      · rw [collapseRuns, if_pos ha, ih'.1]
      · intro _
        rw [collapseRuns, if_pos ha, ih'.1]
    · have hdd : d = '-' := by
        have := hc d (List.mem_cons_self d t)
        simpa [isSlugChar, ha, beq_iff_eq] using this
      subst hdd
      constructor
      · rw [collapseRuns, if_neg ha, ih'.2 (noDD_head hd rfl)]
        simp
      · intro hh
        simp at hh

theorem trims_eq {l : List Char} (h : NoDD l) :
    dropTrailDash (dropLeadDash l) = trimDashes l := by
  rw [trimDashes, dropLeadDash_eq_dropWhile h, dropTrailDash,
    trimTrailDashes]
  have h1 : NoDD (l.dropWhile isDash) := by
    rw [← dropLeadDash_eq_dropWhile h]
    exact noDD_dropLeadDash h
  rw [← dropLeadDash_eq_dropWhile (noDD_reverse h1)]

theorem slugChars_eq_spec (l : List Char) :
    slugChars l = trimDashes (specCollapse (l.map Char.toLower)) := by
  rw [slugChars, specCollapse_eq,
    trims_eq (noDD_collapseRuns false (l.map Char.toLower))]

theorem mem_slugChars {l : List Char} {c : Char} (h : c ∈ slugChars l) :
    isSlugChar c = true := by
  rw [slugChars, dropTrailDash] at h
  rw [List.mem_reverse] at h
  have h1 := mem_dropLeadDash h
  rw [List.mem_reverse] at h1
  exact mem_collapseRuns (mem_dropLeadDash h1)

theorem noDD_slugChars (l : List Char) : NoDD (slugChars l) := by
  rw [slugChars, dropTrailDash]
  exact noDD_reverse (noDD_dropLeadDash (noDD_reverse
    (noDD_dropLeadDash (noDD_collapseRuns false (l.map Char.toLower)))))

theorem head_slugChars (l : List Char) :
    (slugChars l).head? ≠ some '-' := by
  rw [slugChars, dropTrailDash, List.head?_reverse]
  have h0 := noDD_collapseRuns false (l.map Char.toLower)
  exact getLast_dropLeadDash
    (by rw [List.getLast?_reverse]; exact head_dropLeadDash h0)

theorem getLast_slugChars (l : List Char) :
    (slugChars l).getLast? ≠ some '-' := by
  rw [slugChars, dropTrailDash, List.getLast?_reverse]
  have h0 := noDD_collapseRuns false (l.map Char.toLower)
  exact head_dropLeadDash (noDD_reverse (noDD_dropLeadDash h0))

theorem slugChars_fixed {l : List Char}
    (hc : ∀ c ∈ l, isSlugChar c = true) (hd : NoDD l)
    (hh : l.head? ≠ some '-') (ht : l.getLast? ≠ some '-') :
    slugChars l = l := by
  rw [slugChars, map_toLower_fixed hc, (collapseRuns_fixed hc hd).1,
    dropLeadDash_of_head hh, dropTrailDash,
    dropLeadDash_of_head (by rw [List.head?_reverse]; exact ht),
    List.reverse_reverse]

theorem slugChars_idem (l : List Char) :
    slugChars (slugChars l) = slugChars l :=
  slugChars_fixed (fun _ h => mem_slugChars h) (noDD_slugChars l)
    (head_slugChars l) (getLast_slugChars l)

theorem mem_collapseRuns_of {b : Bool} {l : List Char} {c : Char}
    (hc : isSlugAlnum c = true) (h : c ∈ l) : c ∈ collapseRuns b l := by
  induction l generalizing b with
  | nil => exact absurd h (List.not_mem_nil c)
  | cons d t ih =>
    by_cases hd : isSlugAlnum d = true
    · rw [collapseRuns, if_pos hd]
      rcases List.mem_cons.mp h with rfl | h'
      · exact List.mem_cons_self _ _
      · exact List.mem_cons_of_mem d (ih h')
    · have h' : c ∈ t := by
        rcases List.mem_cons.mp h with rfl | h'
        · exact absurd hc hd
        · exact h'
      rw [collapseRuns, if_neg hd]
      cases b with
      | true => exact ih h'
      | false => exact List.mem_cons_of_mem '-' (ih h')

theorem slugChars_ne_nil {l : List Char} {c : Char} (h : c ∈ l)
    (hc : isSlugAlnum (Char.toLower c) = true) : slugChars l ≠ [] := by
  have h1 : Char.toLower c ∈ l.map Char.toLower :=
    List.mem_map_of_mem Char.toLower h
  have h2 : Char.toLower c ∈ collapseRuns false (l.map Char.toLower) :=
    mem_collapseRuns_of hc h1
  have hne : Char.toLower c ≠ '-' := slugAlnum_ne_dash hc
  have h3 := mem_dropLeadDash_of h2 hne
  have h4 : Char.toLower c ∈ slugChars l := by
    rw [slugChars, dropTrailDash, List.mem_reverse]
    exact mem_dropLeadDash_of (by rw [List.mem_reverse]; exact h3) hne
  exact List.ne_nil_of_mem h4

theorem urlSafe_slugChars (l : List Char) :
    (slugChars l).all isSlugChar = true :=
  List.all_eq_true.mpr (fun _ h => mem_slugChars h)

/-! ## Claim theorems for the slug generator -/

/-- C2: for every string s, `nameToSlug s` equals the spec's `Slugify`:
lowercase s, replace every maximal run of characters outside `[a-z0-9]`
with a single "-", and remove leading and trailing "-"; in particular
`nameToSlug "" = ""`. -/
theorem nameToSlug_eq_spec (s : String) :
    nameToSlug s = slugifySpec s ∧ nameToSlug "" = "" := by
  refine ⟨?_, rfl⟩
  rw [nameToSlug, slugifySpec, slugChars_eq_spec]

/-- C3: `nameToSlug` is deterministic (equal inputs give equal outputs)
and idempotent: `nameToSlug (nameToSlug x) = nameToSlug x` for every x. -/
theorem nameToSlug_deterministic_idempotent :
    (∀ x y : String, x = y → nameToSlug x = nameToSlug y) ∧
    (∀ x : String, nameToSlug (nameToSlug x) = nameToSlug x) := by
  refine ⟨fun x y h => by rw [h], fun x => ?_⟩
  show (⟨slugChars (slugChars x.data)⟩ : String) = ⟨slugChars x.data⟩
  exact congrArg String.mk (slugChars_idem x.data)

/-- Witness for C3 at the concrete input "Acme Inc". -/
theorem nameToSlug_deterministic_idempotent_witness :
    nameToSlug "Acme Inc" = nameToSlug "Acme Inc" ∧
    nameToSlug (nameToSlug "Acme Inc") = nameToSlug "Acme Inc" :=
  ⟨nameToSlug_deterministic_idempotent.1 "Acme Inc" "Acme Inc" rfl,
   nameToSlug_deterministic_idempotent.2 "Acme Inc"⟩

/-! ## Claim theorem for the domain matcher -/

/-- C1: an organization is in `FindJoinable D policies` iff the lowercased
domain D is byte-for-byte equal to an entry of its domain set and its open
flag is true; for D = "" no organization is returned (domain entries are
non-empty by the stored-normalized invariant), and when nothing matches
the result is the empty list, not an error. -/
theorem findJoinable_matches_iff (D : String)
    (policies : List OrganizationDomainPolicy) (oid : Nat)
    (hwf : ∀ p ∈ policies, ∀ d ∈ p.domains, d ≠ "") :
    (oid ∈ FindJoinable D policies ↔
      ∃ p ∈ policies, p.orgId = oid ∧ p.openFlag = true ∧
        lowerStr D ∈ p.domains) ∧
    FindJoinable "" policies = [] ∧
    ((∀ p ∈ policies, policyAdmits p D = false) →
      FindJoinable D policies = []) := by
  refine ⟨?_, ?_, ?_⟩
  · simp only [FindJoinable, List.mem_map, List.mem_filter, policyAdmits,
      Bool.and_eq_true, List.contains_nil, List.elem_eq_mem,
      decide_eq_true_eq]
    constructor
    · rintro ⟨p, ⟨hp, hopen, hmem⟩, rfl⟩
      exact ⟨p, hp, rfl, hopen, by simpa using hmem⟩
    · rintro ⟨p, hp, rfl, hopen, hmem⟩
      exact ⟨p, ⟨hp, hopen, by simpa using hmem⟩, rfl⟩
  · have hnone : ∀ p ∈ policies, ¬(policyAdmits p "" = true) := by
      intro p hp hadm
      rw [policyAdmits, Bool.and_eq_true] at hadm
      have hmem : ("" : String) ∈ p.domains := by
        have h2 := hadm.2
        rw [show lowerStr "" = "" from rfl] at h2
        simpa using h2
      exact hwf p hp "" hmem rfl
    rw [FindJoinable, List.filter_eq_nil_iff.mpr hnone, List.map_nil]
  · intro hno
    rw [FindJoinable,
      List.filter_eq_nil_iff.mpr (fun p hp => by rw [hno p hp]; simp),
      List.map_nil]

/-- Witness for C1 on a concrete policy set. -/
theorem findJoinable_matches_iff_witness :
    1 ∈ FindJoinable "Acme.com" [⟨1, ["acme.com"], true⟩] ∧
    FindJoinable "" [⟨1, ["acme.com"], true⟩] = [] :=
  ⟨(findJoinable_matches_iff "Acme.com" [⟨1, ["acme.com"], true⟩] 1
      (by decide)).1.mpr
    ⟨⟨1, ["acme.com"], true⟩, by decide, rfl, rfl, by decide⟩,
   (findJoinable_matches_iff "Acme.com" [⟨1, ["acme.com"], true⟩] 1
      (by decide)).2.1⟩

/-! ## Claim theorems for the profile schema (C4) -/

theorem one_le_strLength_iff (s : String) : 1 ≤ s.length ↔ s ≠ "" := by
  constructor
  · intro h he
    rw [he] at h
    simp at h
  · intro h
    by_contra hlt
    push_neg at hlt
    have h0 : s.data.length = 0 := by
      have : s.length = s.data.length := rfl
      omega
    exact h (by
      have : s.data = [] := List.length_eq_zero.mp h0
      cases s
      simp only at this
      rw [this])

/-- C4 counterexample: the zod schema accepts role = "invalid", a value
outside the `ROLES` enumeration, because it only checks `min(1)`; the
claim that any out-of-enumeration field fails validation is false. -/
theorem schema_accepts_invalid_role :
    schemaValidate "invalid" "2-25" "internal-apps" = true ∧
    ("invalid" ∈ ROLES → False) := by decide

theorem schemaValidate_iff_nonempty (role companySize useCase : String) :
    schemaValidate role companySize useCase = true ↔
      role ≠ "" ∧ companySize ≠ "" ∧ useCase ≠ "" := by
  rw [schemaValidate]
  simp only [Bool.and_eq_true, decide_eq_true_eq]
  rw [one_le_strLength_iff, one_le_strLength_iff, one_le_strLength_iff,
    and_assoc]

/-- C4 amended: profile validation fails exactly when one of role,
companySize, useCase is the empty string (a non-empty value outside the
enumerations passes — the Select widgets are what restrict the offered
values); on a validation failure no profile row is created, and a valid
submission upserts without duplicating rows. -/
theorem submitProfile_amended (st : ProfileStore) (uid : Nat)
    (r c u : String) :
    (schemaValidate r c u = true ↔ r ≠ "" ∧ c ≠ "" ∧ u ≠ "") ∧
    (schemaValidate r c u = false →
      submitProfile st uid r c u =
        (st, Except.error SubmitError.validationError)) ∧
    (schemaValidate r c u = true → countProfiles st uid ≤ 1 →
      countProfiles (submitProfile st uid r c u).1 uid = 1) := by
  refine ⟨schemaValidate_iff_nonempty r c u, ?_, ?_⟩
  · intro hfail
    rw [submitProfile, if_neg (by simp [hfail])]
  · intro hok hle
    rw [submitProfile, if_pos hok]
    show countProfiles (upsertProfile st uid r c u) uid = 1
    rw [upsertProfile]
    by_cases hex : st.rows.any (fun row => row.userId == uid) = true
    · rw [if_pos hex]
      have hpos : 1 ≤ countProfiles st uid := by
        rcases List.any_eq_true.mp hex with ⟨row, hrow, hprow⟩
        exact List.countP_pos_iff.mpr ⟨row, hrow, hprow⟩
      have hcongr :
          countProfiles
            (⟨st.rows.map (fun row =>
              if row.userId == uid then ⟨uid, r, c, u⟩ else row)⟩ :
              ProfileStore) uid = countProfiles st uid := by
        show List.countP _ (st.rows.map _) = _
        rw [List.countP_map]
        refine List.countP_congr (fun row _ => ?_)
        by_cases hrw : row.userId = uid
        · simp [Function.comp, hrw]
        · simp [Function.comp, hrw]
      rw [hcongr]
      omega
    · rw [if_neg hex]
      have h0 : countProfiles st uid = 0 := by
        rw [countProfiles]
        refine List.countP_eq_zero.mpr (fun row hrow => ?_)
        cases hb : st.rows.any (fun row => row.userId == uid) with
        | true => exact absurd hb hex
        | false => exact List.any_eq_false.mp hb row hrow
      have hfin : List.countP (fun row => row.userId == uid)
          ((⟨uid, r, c, u⟩ : ProfileRow) :: st.rows) = 1 := by
        rw [List.countP_cons]
        rw [countProfiles] at h0
        rw [h0]
        simp
      exact hfin

/-- Witness for the amended C4: an empty companySize is rejected and
leaves the empty store unchanged. -/
theorem submitProfile_amended_witness :
    submitProfile ⟨[]⟩ 1 "engineering" "" "internal-apps" =
      (⟨[]⟩, Except.error SubmitError.validationError) :=
  (submitProfile_amended ⟨[]⟩ 1 "engineering" "" "internal-apps").2.1
    (by decide)

/-! ## Lemmas and claim theorem for extractDomain (C9) -/

theorem splitOnChar_ne_nil (sep : Char) (l : List Char) :
    splitOnChar sep l ≠ [] := by
  cases l with
  | nil => simp [splitOnChar]
  | cons c cs =>
    rw [splitOnChar]
    by_cases h : c = sep
    · rw [if_pos h]
      simp
    · rw [if_neg h]
      cases splitOnChar sep cs <;> simp

theorem length_splitOnChar (sep : Char) (l : List Char) :
    (splitOnChar sep l).length = l.count sep + 1 := by
  induction l with
  | nil => simp [splitOnChar]
  | cons c cs ih =>
    rw [splitOnChar]
    by_cases h : c = sep
    · rw [if_pos h]
      subst h
      simp [List.count_cons, ih]
    · rw [if_neg h]
      rcases hs : splitOnChar sep cs with _ | ⟨p, ps⟩
      · exact absurd hs (splitOnChar_ne_nil sep cs)
      · rw [hs] at ih
        simp only [List.length_cons] at ih ⊢
        rw [List.count_cons]
        simp [h, ih]

theorem splitOnChar_count_zero {sep : Char} {l : List Char}
    (h : l.count sep = 0) : splitOnChar sep l = [l] := by
  induction l with
  | nil => rfl
  | cons c cs ih =>
    rw [List.count_cons] at h
    have hc : ¬ c = sep := by
      intro he
      subst he
      simp at h
    have h0 : cs.count sep = 0 := by
      by_contra hne
      omega
    rw [splitOnChar, if_neg hc, ih h0]

theorem splitOnChar_count_one {sep : Char} {l : List Char}
    (h : l.count sep = 1) :
    splitOnChar sep l =
      [l.takeWhile (fun c => !(c == sep)),
       (l.dropWhile (fun c => !(c == sep))).tail] := by
  induction l with
  | nil => simp at h
  | cons c cs ih =>
    by_cases hc : c = sep
    · subst hc
      rw [List.count_cons] at h
      simp at h
      have h0 : cs.count c = 0 := h
      rw [splitOnChar, if_pos rfl, splitOnChar_count_zero h0,
        List.takeWhile_cons, List.dropWhile_cons]
      simp
    · have hbeq : (c == sep) = false := by
        simp [beq_iff_eq, hc]
      have h1 : cs.count sep = 1 := by
        rw [List.count_cons] at h
        simp [hc] at h
        exact h
      rw [splitOnChar, if_neg hc, ih h1, List.takeWhile_cons,
        List.dropWhile_cons]
      simp [hbeq]

/-- C9: `extractDomain` returns the substring after the "@" exactly when
the email contains a single "@" (split yields exactly two parts); with no
"@" or more than one "@" it returns "", not the substring after the last
"@" — e.g. it maps "a@b@c.com" to "". -/
theorem extractDomain_spec (email : String) :
    extractDomain email =
      (if email.data.count '@' = 1 then
        (⟨(email.data.dropWhile (fun c => !(c == '@'))).tail⟩ : String)
      else "") ∧
    extractDomain "a@b@c.com" = "" := by
  refine ⟨?_, by decide⟩
  by_cases h : email.data.count '@' = 1
  · rw [if_pos h, extractDomain]
    simp only [splitOnChar_count_one h, List.length_cons, List.length_nil]
    rfl
  · rw [if_neg h, extractDomain]
    have hlen : (splitOnChar '@' email.data).length ≠ 2 := by
      rw [length_splitOnChar]
      omega
    simp only [hlen, if_false]

/-! ## Claim theorem for the setup submission frame property (C10) -/

/-- C10: the update request built by `SetupOrgDialog.onSubmit` carries the
name field alone, so applying it changes only the display name: the slug,
avatar reference and domain policy of the stored team are unchanged. -/
theorem setupOrg_update_frame (t : TeamRecord) (formName : String) :
    (setupOrgSubmitUpdate formName).slug = none ∧
    (setupOrgSubmitUpdate formName).avatarUrl = none ∧
    (setupOrgSubmitUpdate formName).allowedEmailDomains = none ∧
    (applyTeamUpdate t (setupOrgSubmitUpdate formName)).slug = t.slug ∧
    (applyTeamUpdate t (setupOrgSubmitUpdate formName)).avatarUrl
      = t.avatarUrl ∧
    (applyTeamUpdate t (setupOrgSubmitUpdate formName)).allowedEmailDomains
      = t.allowedEmailDomains ∧
    (applyTeamUpdate t (setupOrgSubmitUpdate formName)).name = formName := by
  simp [setupOrgSubmitUpdate, applyTeamUpdate]

/-! ## Claim theorems for organization creation (C5) -/

/-- C5 counterexample: two creations with the requested name "Acme Inc"
do not yield slugs `acme-inc` and `acme-inc-2`; the second call surfaces
the repository's slug conflict unchanged, because `handleCreateNew`
attempts the insert exactly once and has no suffix-retry loop. -/
theorem create_collision_counterexample :
    (handleCreateNew ⟨[]⟩ "Acme Inc").2 =
      Except.ok ⟨0, "Acme Inc", "acme-inc"⟩ ∧
    (handleCreateNew (handleCreateNew ⟨[]⟩ "Acme Inc").1 "Acme Inc").2 =
      Except.error CreateError.slugConflict ∧
    countSlug (handleCreateNew (handleCreateNew ⟨[]⟩ "Acme Inc").1
      "Acme Inc").1 "acme-inc-2" = 0 :=
  ⟨rfl, rfl, rfl⟩

/-- C5 amended: on a slug uniqueness conflict `handleCreateNew` fails
immediately with the conflict error and leaves the store unchanged — there
is no numeric-suffix retry and no retry bound. -/
theorem handleCreateNew_conflict_no_retry (st : RepoState) (name : String)
    (h : countSlug st (nameToSlug name) ≠ 0) :
    handleCreateNew st name =
      (st, Except.error CreateError.slugConflict) := by
  have hb : st.orgs.any (fun o => o.slug == nameToSlug name) = true := by
    rw [countSlug] at h
    rcases List.countP_pos_iff.mp (Nat.pos_of_ne_zero h) with ⟨o, ho, hpo⟩
    exact List.any_eq_true.mpr ⟨o, ho, hpo⟩
  rw [handleCreateNew, insertOrganization, if_pos hb]

/-- Witness for the amended C5 on a store already holding `acme-inc`. -/
theorem handleCreateNew_conflict_no_retry_witness :
    handleCreateNew ⟨[⟨0, "Acme Inc", "acme-inc"⟩]⟩ "Acme Inc" =
      (⟨[⟨0, "Acme Inc", "acme-inc"⟩]⟩,
        Except.error CreateError.slugConflict) :=
  handleCreateNew_conflict_no_retry ⟨[⟨0, "Acme Inc", "acme-inc"⟩]⟩
    "Acme Inc" (by decide)

/-! ## Claim theorems for joining (C6, C7) -/

/-- C6: joining the same organization twice (the second call finding the
membership the first call inserted) leaves exactly one membership row for
the pair and reports success both times — the already-member case is
resolved into a success carrying the existing membership. -/
theorem joinOrganization_idempotent (st0 : JoinState)
    (policies : List OrganizationDomainPolicy) (u : Nat) (d : String)
    (o : Nat) (p : OrganizationDomainPolicy)
    (hp : findPolicy policies o = some p)
    (hadm : policyAdmits p d = true)
    (h0 : countMemberships st0 u o = 0) :
    (joinOrganization st0 policies u d o).2 = Except.ok ⟨u, o⟩ ∧
    (joinOrganization (joinOrganization st0 policies u d o).1 policies u d
      o).2 = Except.ok ⟨u, o⟩ ∧
    countMemberships
      (joinOrganization (joinOrganization st0 policies u d o).1 policies u
        d o).1 u o = 1 := by
  have hfind : findMembership st0 u o = none := by
    rw [findMembership, List.find?_eq_none]
    intro m hm
    rw [countMemberships] at h0
    exact List.countP_eq_zero.mp h0 m hm
  have hstep1 : joinOrganization st0 policies u d o =
      (⟨⟨u, o⟩ :: st0.memberships⟩, Except.ok ⟨u, o⟩) := by
    simp only [joinOrganization, hp, hadm, if_true, hfind]
  have hfind2 :
      findMembership ⟨⟨u, o⟩ :: st0.memberships⟩ u o = some ⟨u, o⟩ := by
    rw [findMembership]
    exact List.find?_cons_of_pos _ (by simp)
  have hstep2 :
      joinOrganization ⟨⟨u, o⟩ :: st0.memberships⟩ policies u d o =
        (⟨⟨u, o⟩ :: st0.memberships⟩, Except.ok ⟨u, o⟩) := by
    simp only [joinOrganization, hp, hadm, if_true, hfind2]
  refine ⟨by rw [hstep1], by rw [hstep1, hstep2], ?_⟩
  rw [hstep1, hstep2]
  rw [countMemberships] at h0
  have hfin : List.countP (fun m => m.userId == u && m.orgId == o)
      ((⟨u, o⟩ : MembershipRow) :: st0.memberships) = 1 := by
    rw [List.countP_cons, h0]
    simp
  exact hfin

/-- Witness for C6 on a concrete open policy and empty store. -/
theorem joinOrganization_idempotent_witness :
    countMemberships
      (joinOrganization (joinOrganization ⟨[]⟩ [⟨7, ["acme.com"], true⟩] 1
        "acme.com" 7).1 [⟨7, ["acme.com"], true⟩] 1 "acme.com" 7).1 1 7
      = 1 :=
  (joinOrganization_idempotent ⟨[]⟩ [⟨7, ["acme.com"], true⟩] 1 "acme.com"
    7 ⟨7, ["acme.com"], true⟩ (by decide) (by decide) (by decide)).2.2

/-- C7: when the organization's current policy does not admit the user's
email domain (or the organization has no policy), `joinOrganization`
fails with `DomainNotAllowed` surfaced verbatim and does not change the
membership store. -/
theorem joinOrganization_rejects_disallowed_domain (st : JoinState)
    (policies : List OrganizationDomainPolicy) (u : Nat) (d : String)
    (o : Nat)
    (h : ∀ p ∈ findPolicy policies o, policyAdmits p d = false) :
    joinOrganization st policies u d o =
      (st, Except.error JoinError.domainNotAllowed) := by
  rcases hfp : findPolicy policies o with _ | p
  · simp only [joinOrganization, hfp]
  · have hfalse := h p (Option.mem_def.mpr hfp)
    simp [joinOrganization, hfp, hfalse]

/-- Witness for C7: a closed policy set that does not admit the domain. -/
theorem joinOrganization_rejects_disallowed_domain_witness :
    joinOrganization ⟨[]⟩ [⟨7, ["other.com"], true⟩] 1 "acme.com" 7 =
      (⟨[]⟩, Except.error JoinError.domainNotAllowed) :=
  joinOrganization_rejects_disallowed_domain ⟨[]⟩
    [⟨7, ["other.com"], true⟩] 1 "acme.com" 7
    (fun p hp => by
      rw [Option.mem_def] at hp
      have h2 : some (⟨7, ["other.com"], true⟩ : OrganizationDomainPolicy)
          = some p := hp
      cases h2
      decide)

/-! ## Lemmas and claim theorem for the skip-join and fallback-name
scenario (C8) -/

theorem urlSafe_nameToSlug (s : String) :
    isUrlSafeSlug (nameToSlug s) = true :=
  urlSafe_slugChars s.data

theorem nameToSlug_ne_empty {s : String} {c : Char} (h : c ∈ s.data)
    (hc : isSlugAlnum (Char.toLower c) = true) : nameToSlug s ≠ "" := by
  intro he
  exact slugChars_ne_nil h hc (congrArg String.data he)

theorem getD_mem_of_lt {l : List String} {n : Nat} (h : n < l.length) :
    l.getD n "" ∈ l := by
  rw [List.getD_eq_getElem?_getD, List.getElem?_eq_getElem h]
  exact List.getElem_mem h

theorem adjectives_have_alnum :
    ∀ a ∈ ADJECTIVES,
      a.data.any (fun c => isSlugAlnum (Char.toLower c)) = true := by
  decide

theorem generateRandomOrgName_has_alnum (i j : Nat) :
    ∃ c ∈ (generateRandomOrgName i j).data,
      isSlugAlnum (Char.toLower c) = true := by
  have hlen : i % ADJECTIVES.length < ADJECTIVES.length :=
    Nat.mod_lt _ (by decide)
  have hmem := getD_mem_of_lt hlen
  rcases List.any_eq_true.mp (adjectives_have_alnum _ hmem) with
    ⟨c, hc_mem, hc⟩
  refine ⟨c, ?_, hc⟩
  rw [generateRandomOrgName, String.data_append, String.data_append]
  exact List.mem_append_left _ (List.mem_append_left _ hc_mem)

/-- C8: with no matching domain policy anywhere, the state after profile
submission is `Completed` (skipping `AwaitingOrgChoice`), the skip is
evaluated once (a later policy change leaves a completed user completed),
and creation with no requested name falls back to a generated name whose
slug is non-empty, URL-safe and unique in the resulting store. -/
theorem skipJoin_and_fallback_slug (policies : List OrganizationDomainPolicy)
    (hnomatch : ∀ p ∈ policies, policyAdmits p "nomatch.com" = false)
    (st : RepoState) (i j : Nat)
    (hfree : countSlug st (nameToSlug (generateRandomOrgName i j)) = 0) :
    FindJoinable "nomatch.com" policies = [] ∧
    stageAfterProfile (FindJoinable "nomatch.com" policies) =
      Stage.completed ∧
    stageAfterProfile (FindJoinable "nomatch.com" policies) ≠
      Stage.awaitingOrgChoice ∧
    (∀ joinableLater : List Nat,
      getStateStage true true joinableLater = Stage.completed) ∧
    ∃ org,
      (handleCreateNew st (generateRandomOrgName i j)).2 =
        Except.ok org ∧
      org.slug = nameToSlug (generateRandomOrgName i j) ∧
      org.slug ≠ "" ∧ isUrlSafeSlug org.slug = true ∧
      countSlug (handleCreateNew st (generateRandomOrgName i j)).1
        org.slug = 1 := by
  have hFJ : FindJoinable "nomatch.com" policies = [] := by
    rw [FindJoinable,
      List.filter_eq_nil_iff.mpr
        (fun p hp => by rw [hnomatch p hp]; simp),
      List.map_nil]
  have hany :
      st.orgs.any
        (fun o => o.slug == nameToSlug (generateRandomOrgName i j))
      = false := by
    rw [countSlug] at hfree
    exact List.any_eq_false.mpr (List.countP_eq_zero.mp hfree)
  have hcreate :
      handleCreateNew st (generateRandomOrgName i j) =
        (⟨(⟨st.orgs.length, generateRandomOrgName i j,
            nameToSlug (generateRandomOrgName i j)⟩ : Organization)
          :: st.orgs⟩,
         Except.ok ⟨st.orgs.length, generateRandomOrgName i j,
            nameToSlug (generateRandomOrgName i j)⟩) := by
    rw [handleCreateNew, insertOrganization, if_neg (by simp [hany])]
  rcases generateRandomOrgName_has_alnum i j with ⟨c, hc_mem, hc⟩
  refine ⟨hFJ, by rw [hFJ]; rfl, by rw [hFJ]; decide, fun _ => rfl,
    ⟨st.orgs.length, generateRandomOrgName i j,
      nameToSlug (generateRandomOrgName i j)⟩,
    by rw [hcreate], rfl, nameToSlug_ne_empty hc_mem hc,
    urlSafe_nameToSlug _, ?_⟩
  rw [hcreate]
  rw [countSlug] at hfree
  have hfin : List.countP
      (fun o2 => o2.slug == nameToSlug (generateRandomOrgName i j))
      ((⟨st.orgs.length, generateRandomOrgName i j,
          nameToSlug (generateRandomOrgName i j)⟩ : Organization)
        :: st.orgs) = 1 := by
    rw [List.countP_cons, hfree]
    simp
  exact hfin

/-- Witness for C8 on a concrete non-matching policy set and empty
store. -/
theorem skipJoin_and_fallback_slug_witness :
    stageAfterProfile
      (FindJoinable "nomatch.com" [⟨1, ["@acme.com"], true⟩]) =
      Stage.completed :=
  (skipJoin_and_fallback_slug [⟨1, ["@acme.com"], true⟩] (by decide)
    ⟨[]⟩ 0 0 (by decide)).2.1
